import Mathlib

/-!
# Verification of the Debate Room turn-orchestration core

A shallow embedding, in Lean 4, of the state-relevant logic of the Debate
Room application (an Express server `server.js` plus a browser client
`public/script.js`), together with theorems settling the frozen claims
about its specification.

Strings are modelled as `List Char` (the `.data` field of a `String`),
so that the JavaScript string operations used by the source — `indexOf`,
`substring`, `match` with the handful of fixed regexes, `split`,
`includes`, `replace(/…/g, '')`, `trim`, `toLowerCase` — become
executable structural functions.

The file is organised as: all definitions (string primitives, the server
session model, the client parser and loop model), then all theorems.
-/

namespace DebateRoom

/-! ## String primitives

JavaScript semantics being modelled:
* `firstIdx pat s` — `s.indexOf(pat)` (as `Option Nat`);
* `containsSub pat s` — `s.includes(pat)`;
* `Occurs pat s` — the proposition "`pat` occurs as a substring of `s`";
* `jsTrim` — `String.prototype.trim` (whitespace stripped at both ends);
* `jsLower` — `String.prototype.toLowerCase` (ASCII is all the source needs).
-/

def jsTrim (s : List Char) : List Char :=
  ((s.dropWhile Char.isWhitespace).reverse.dropWhile Char.isWhitespace).reverse

def jsLower (s : List Char) : List Char :=
  s.map Char.toLower

def firstIdx (pat : List Char) : List Char → Option Nat
  | [] => if pat = [] then some 0 else none
  | c :: rest =>
    if pat.isPrefixOf (c :: rest) then some 0
    else (firstIdx pat rest).map (· + 1)

def containsSub (pat s : List Char) : Bool :=
  (firstIdx pat s).isSome

/-- `pat` occurs as a contiguous substring of `s`. -/
def Occurs (pat s : List Char) : Prop :=
  ∃ a b, s = a ++ pat ++ b

/-! ## Fixed delimiters used by the source's regexes -/

def outOpen : List Char := "<output>".data
def outClose : List Char := "</output>".data
def thinkOpen : List Char := "<thinking>".data
def thinkClose : List Char := "</thinking>".data
def clarOpen : List Char := "<clarification>".data
def clarClose : List Char := "</clarification>".data

/-! ## Derived string operations

* `extractAfter pat s` — `s.substring(s.indexOf(pat) + pat.length)` when
  `pat` occurs, i.e. everything after the first occurrence of `pat`.
* `extractBetween o c s` — the JavaScript `s.match(/o([\s\S]*?)c/)[1]`:
  the text between the first occurrence of `o` and the first occurrence
  of `c` after it; `none` when no such pair exists (a leftmost lazy match
  starting at the first `o` succeeds iff some `c` follows it).
* `splitSecond sep s` — `s.split(sep)[1]`: the segment after the first
  occurrence of `sep`, up to the next occurrence if any.
* `removeTagPass close open s` — `s.replace(/<\/?tag>/g, '')`: one
  left-to-right pass removing non-overlapping occurrences; text created
  at the removal junctions is NOT rescanned (it is simply part of the
  accumulated result), exactly as `String.prototype.replace` behaves.
  The `Nat` fuel (initialised to the length) only makes the recursion
  structural; it never runs out because every step consumes at least one
  character.
-/

def extractAfter (pat s : List Char) : Option (List Char) :=
  (firstIdx pat s).map (fun i => s.drop (i + pat.length))

def extractBetween (openPat closePat s : List Char) : Option (List Char) :=
  match firstIdx openPat s with
  | none => none
  | some i =>
    let rest := s.drop (i + openPat.length)
    (firstIdx closePat rest).map (fun j => rest.take j)

def splitSecond (sep s : List Char) : List Char :=
  match extractAfter sep s with
  | none => []
  | some rest =>
    match firstIdx sep rest with
    | none => rest
    | some j => rest.take j

def removeTagPassAux (closeTag openTag : List Char) : Nat → List Char → List Char
  | 0, _ => []
  | _, [] => []
  | fuel + 1, c :: rest =>
    if closeTag ≠ [] ∧ closeTag.isPrefixOf (c :: rest) then
      removeTagPassAux closeTag openTag fuel ((c :: rest).drop closeTag.length)
    else if openTag ≠ [] ∧ openTag.isPrefixOf (c :: rest) then
      removeTagPassAux closeTag openTag fuel ((c :: rest).drop openTag.length)
    else c :: removeTagPassAux closeTag openTag fuel rest

def removeTagPass (closeTag openTag s : List Char) : List Char :=
  removeTagPassAux closeTag openTag s.length s

/-! ## The client response parser (`DebateArena.parseResponse`, script.js)

A line-by-line translation of the source: thinking is taken from a
well-formed `<thinking>…</thinking>` pair, else everything after a lone
`<thinking>`; output from a well-formed `<output>…</output>` pair, else
everything after a lone `<output>`; if the output is still empty, fall
back to the text after `</thinking>` (JavaScript `split[1]`), or to the
whole text when neither a `<thinking>` nor an `<output>` tag occurs;
finally one removal pass strips output tags then thinking tags, and the
result is trimmed. -/

def parseResponse (text : List Char) : List Char × List Char :=
  if text = [] then ([], [])
  else
    let thinking :=
      match extractBetween thinkOpen thinkClose text with
      | some inner => jsTrim inner
      | none =>
        match extractAfter thinkOpen text with
        | some rest => jsTrim rest
        | none => []
    let output0 :=
      match extractBetween outOpen outClose text with
      | some inner => jsTrim inner
      | none =>
        match extractAfter outOpen text with
        | some rest => jsTrim rest
        | none => []
    let output1 :=
      if output0 = [] then
        if containsSub thinkClose text then jsTrim (splitSecond thinkClose text)
        else if containsSub thinkOpen text = false ∧ containsSub outOpen text = false then
          jsTrim text
        else output0
      else output0
    let output2 :=
      if output1 ≠ [] then
        jsTrim (removeTagPass thinkClose thinkOpen (removeTagPass outClose outOpen output1))
      else output1
    (thinking, output2)

/-! ## The client winner extraction (`DebateArena.extractWinner`, script.js)

Returns the JavaScript string literally returned by the source
(`'advocate' | 'skeptic' | 'draw'`), or `none` for the source's `null`. -/

def extractWinner (verdictText : List Char) : Option (List Char) :=
  let text := jsLower verdictText
  if containsSub "advocate wins".data text || containsSub "winner: advocate".data text
      || containsSub "advocate is the winner".data text then
    some "advocate".data
  else if containsSub "skeptic wins".data text || containsSub "winner: skeptic".data text
      || containsSub "skeptic is the winner".data text then
    some "skeptic".data
  else if containsSub "draw".data text || containsSub "tie".data text then
    some "draw".data
  else
    none

/-- The disjunction of canonical advocate phrases (matched against the
lowercased verdict). -/
def advocatePhrase (t : List Char) : Prop :=
  Occurs "advocate wins".data t ∨ Occurs "winner: advocate".data t ∨
    Occurs "advocate is the winner".data t

def skepticPhrase (t : List Char) : Prop :=
  Occurs "skeptic wins".data t ∨ Occurs "winner: skeptic".data t ∨
    Occurs "skeptic is the winner".data t

def drawPhrase (t : List Char) : Prop :=
  Occurs "draw".data t ∨ Occurs "tie".data t

/-! ## Server-side session model (server.js)

A `Debate` is the value stored in the server's `debates` map:
`{ idea, fileContext, history, round }` at creation (`/api/start-debate`
stores no `clarifications` key; `debate.clarifications || []` in the
source makes the missing field behave as the empty list, which is how it
is modelled). The `files` array is only used to build `fileContext` and
is not re-read, so it is not part of the model. The source's
clarification entries may additionally carry a `timestamp`; it is never
read and is omitted. -/

inductive Role where
  | advocate
  | skeptic
deriving DecidableEq, Repr, BEq

structure Clarification where
  question : List Char
  answer : List Char
deriving DecidableEq, Repr, BEq

structure Turn where
  role : Role
  content : List Char
  output : List Char
deriving DecidableEq, Repr

structure Debate where
  idea : List Char
  fileContext : List Char
  history : List Turn
  round : Nat
  clarifications : List Clarification
deriving DecidableEq, Repr

def freshDebate (idea fileContext : List Char) : Debate :=
  { idea := idea, fileContext := fileContext, history := [], round := 0,
    clarifications := [] }

/-- server.js, `/api/debate-turn`, "Handle clarifications - prevent
duplicates": incoming clarifications whose question text is already
stored are dropped; the remainder is appended. -/
def mergeClarifications (d : Debate) (incoming : List Clarification) : Debate :=
  if incoming = [] then d
  else
    let existingQuestions := d.clarifications.map (·.question)
    let newClarifications :=
      incoming.filter (fun c => !(existingQuestions.contains c.question))
    if newClarifications = [] then d
    else { d with clarifications := d.clarifications ++ newClarifications }

/-- server.js: `fullResponse.match(/<clarification>([\s\S]*?)<\/clarification>/)`. -/
def findClarificationTag (s : List Char) : Option (List Char) :=
  extractBetween clarOpen clarClose s

/-- server.js: `fullResponse.match(/<output>([\s\S]*?)(<\/output>|$)/)`,
then `outputMatch ? outputMatch[1].trim() : fullResponse`. The lazy
group with the `(<\/output>|$)` alternation takes the text from the
first `<output>` up to the first `</output>` after it, or to the end of
the string when no closing tag follows. -/
def extractOutputServer (s : List Char) : List Char :=
  match firstIdx outOpen s with
  | none => s
  | some i =>
    let rest := s.drop (i + outOpen.length)
    match firstIdx outClose rest with
    | none => jsTrim rest
    | some j => jsTrim (rest.take j)

inductive TurnResult where
  | needsClarification (question : List Char) (role : Role)
  | completed (fullResponse : List Char)
deriving DecidableEq, Repr

/-- The state-relevant body of `/api/debate-turn` after the session
lookup succeeded: merge request clarifications, check the generation
output for an embedded `<clarification>` tag (in which case nothing is
stored), otherwise extract the output segment, append the turn to the
history and increment the session's `round` field. -/
def debateTurnStep (d : Debate) (role : Role) (reqClarifications : List Clarification)
    (llmResponse : List Char) : TurnResult × Debate :=
  let d1 := mergeClarifications d reqClarifications
  match findClarificationTag llmResponse with
  | some q => (.needsClarification q role, d1)
  | none =>
    let outputOnly := extractOutputServer llmResponse
    (.completed llmResponse,
      { d1 with history := d1.history ++ [⟨role, llmResponse, outputOnly⟩],
                round := d1.round + 1 })

/-! ## The fact-check endpoint's session lookup (`/api/check-facts`) -/

structure FactCheckContext where
  idea : List Char
  fileContext : List Char
  clarifications : List Clarification
deriving DecidableEq, Repr

def debatesGet (store : List (List Char × Debate)) (debateId : List Char) :
    Option Debate :=
  (store.find? (fun p => p.1 == debateId)).map (·.2)

/-- server.js: `let debate = debates.get(debateId); if (!debate && idea)
debate = { idea, fileContext: clientFileContext || '' }; if (!debate)
404`. A non-empty `idea` is the truthy case of the JavaScript test. -/
def checkFactsContext (store : List (List Char × Debate)) (debateId : List Char)
    (idea clientFileContext : List Char) : Except (List Char) FactCheckContext :=
  match debatesGet store debateId with
  | some d => .ok ⟨d.idea, d.fileContext, d.clarifications⟩
  | none =>
    if idea ≠ [] then .ok ⟨idea, clientFileContext, []⟩
    else .error "Debate not found".data

/-! ## The discovery endpoint (`/api/discovery`)

`Promise.race` either yields both personas' question lists or rejects
(timeout after 30s, or a provider error); the `catch` turns any
rejection into an HTTP 500 `{ error: message }` response. -/

inductive DiscoveryOutcome where
  | results (advocateQuestions skepticQuestions : List (List Char))
  | timeout
  | providerError (message : List Char)

structure DiscoveryQuestion where
  claim : List Char
  question : List Char
deriving DecidableEq, Repr

inductive DiscoveryResponse where
  | ok (clarifications : List DiscoveryQuestion)
  | serverError (message : List Char)
deriving DecidableEq, Repr

/-- server.js: `q.toLowerCase().replace(/[?.,]/g, '').trim()`. -/
def normalizeQuestion (q : List Char) : List Char :=
  jsTrim ((jsLower q).filter (fun c => !(c == '?' || c == '.' || c == ',')))

/-- server.js `processQuestions`: keep the first question per normalized
text, tagging it with the role that asked it first. -/
def processQuestions (seen : List (List Char)) (acc : List (List Char × List Char)) :
    List (List Char) → List Char → List (List Char) × List (List Char × List Char)
  | [], _ => (seen, acc)
  | q :: qs, role =>
    let normalized := normalizeQuestion q
    if seen.contains normalized then processQuestions seen acc qs role
    else processQuestions (seen ++ [normalized]) (acc ++ [(q, role)]) qs role

def discoveryHandler (outcome : DiscoveryOutcome) : DiscoveryResponse :=
  match outcome with
  | .timeout => .serverError "Discovery timeout".data
  | .providerError m => .serverError m
  | .results advQ skepQ =>
    let p1 := processQuestions [] [] advQ "Advocate".data
    let p2 := processQuestions p1.1 p1.2 skepQ "Skeptic".data
    .ok (p2.2.map (fun item => ⟨"Founder Question".data, item.1⟩))

/-- The client's `startDiscovery` (script.js): result of processing a
discovery response — `(return value, isPaused afterwards, modal shown)`.
The function sets `isPaused = true` on entry; a non-empty batch keeps it
set and shows the modal; an empty batch clears it; a non-OK HTTP status
throws into the catch, which clears it and returns `false`. -/
structure DiscoveryClientResult where
  returned : Bool
  isPaused : Bool
  modalShown : Bool
deriving DecidableEq, Repr

def startDiscoveryClient (resp : DiscoveryResponse) : DiscoveryClientResult :=
  match resp with
  | .serverError _ => ⟨false, false, false⟩
  | .ok [] => ⟨true, false, false⟩
  | .ok (_ :: _) => ⟨true, true, true⟩

/-! ## The client clarification submission (`DebateArena.submitClarification`)

State relevant to the submission: the accumulated `this.clarifications`,
whether the modal is open, the pause flag, and the flags that route the
post-submit continuation (`isPreDebateClarification`,
`pendingTurnRetry`, `currentRound`, `discoveryDone`).

The `forEach` over the batch inputs trims each answer; an empty answer
sets `hasEmpty`, a non-empty one is pushed BOTH into the local `answers`
list and into `this.clarifications` immediately. Only afterwards does
`if (hasEmpty && answerInputs.length > 0) return;` reject the
submission — with the partial pushes retained. On acceptance the modal
is hidden and one of three continuations runs; the Discovery one pushes
`answers` into `this.clarifications` a second time
(`this.clarifications = [...this.clarifications, ...answers]`). -/

structure ClientState where
  clarifications : List Clarification
  modalOpen : Bool
  paused : Bool
  isPreDebate : Bool
  pendingTurnRetry : Bool
  currentRound : Nat
  discoveryDone : Bool
deriving DecidableEq, Repr

def scanStep (acc : List Clarification × List Clarification × Bool)
    (qa : List Char × List Char) : List Clarification × List Clarification × Bool :=
  let v := jsTrim qa.2
  if v = [] then (acc.1, acc.2.1, true)
  else (acc.1 ++ [⟨qa.1, v⟩], acc.2.1 ++ [⟨qa.1, v⟩], acc.2.2)

/-- The `forEach` over the batch inputs: `(answers, pushed, hasEmpty)`
where `pushed` is what was appended to `this.clarifications` during the
scan. -/
def scanAnswers (batch : List (List Char × List Char)) :
    List Clarification × List Clarification × Bool :=
  batch.foldl scanStep ([], [], false)

def submitClarification (s : ClientState) (batch : List (List Char × List Char))
    (legacyQuestion legacyValue : List Char) : ClientState :=
  let scan := scanAnswers batch
  let hasEmpty := scan.2.2
  let clar0 := s.clarifications ++ scan.2.1
  let useLegacy := jsTrim legacyValue ≠ [] ∧ scan.1 = []
  let answers := if useLegacy then [⟨legacyQuestion, jsTrim legacyValue⟩] else scan.1
  let clar1 := if useLegacy then clar0 ++ [⟨legacyQuestion, jsTrim legacyValue⟩] else clar0
  if hasEmpty ∧ batch ≠ [] then
    { s with clarifications := clar1 }
  else
    let s1 := { s with clarifications := clar1, modalOpen := false }
    if s1.isPreDebate then
      { s1 with isPreDebate := false, currentRound := 1, paused := false,
                discoveryDone := false }
    else if s1.currentRound = 1 ∧ s1.pendingTurnRetry = false then
      { s1 with paused := false, discoveryDone := true,
                clarifications := s1.clarifications ++ answers }
    else if s1.pendingTurnRetry then
      { s1 with pendingTurnRetry := false, paused := false }
    else s1

/-- The answered `{question, answer}` pairs of a batch (answers trimmed,
empty answers skipped), as accumulated by the scan. -/
def answeredPairs (batch : List (List Char × List Char)) : List Clarification :=
  batch.filterMap (fun qa =>
    let v := jsTrim qa.2
    if v = [] then none else some ⟨qa.1, v⟩)

def hasEmptyAnswer (batch : List (List Char × List Char)) : Bool :=
  batch.any (fun qa => (jsTrim qa.2).isEmpty)

/-! ## The client debate loop (`DebateArena.runDebateLoop` and friends)

A sequential transition model of the loop in script.js.  One `LoopInput`
is the environment's behaviour during one `runDebateRound` call: the
discovery fetch outcome (when the round is the Discovery preamble) and
each persona turn's outcome.  A turn outcome abstracts
`getDebaterResponse`: `ok` = returned `true` without pausing (argument
stored), `interrupt` = returned `true` after pausing for a clarification
(server `needsClarification` or fact-check questions; nothing stored),
`fail` = returned `false`.

`advSince`, `skepSince`, `sound` and `callLog` are ghost instrumentation
(never read by the modelled control flow): the turns appended since the
last `currentRound` increment, whether every increment so far was backed
by at least one advocate and one skeptic turn appended since the
previous increment, and the `currentRound` values at which
`/api/debate-turn` requests were issued. -/

def MAX_FREE_ROUNDS : Nat := 3
def MAX_CONSECUTIVE_ERRORS : Nat := 2

inductive TurnOutcome where
  | ok (argument : List Char)
  | interrupt
  | fail

inductive DiscOutcome where
  | questions
  | empty
  | error

structure LoopInput where
  disc : DiscOutcome
  adv : TurnOutcome
  skep : TurnOutcome

structure Arena where
  currentRound : Nat
  discoveryDone : Bool
  skepticPending : Bool
  pendingRetry : Option Role
  paused : Bool
  limitReached : Bool
  advocateArguments : List (List Char)
  skepticArguments : List (List Char)
  access : Bool
  advSince : Nat
  skepSince : Nat
  sound : Bool
  callLog : List Nat

/-- The skeptic half of `runDebateRound`: `this.interruptedTurn =
'skeptic-pending'` is set before the attempt and cleared only on
success. -/
def skepticPhase (s : Arena) (outcome : TurnOutcome) : Arena × Bool :=
  let s1 := { s with skepticPending := true,
                     callLog := s.callLog ++ [s.currentRound] }
  match outcome with
  | .fail => (s1, false)
  | .interrupt => ({ s1 with paused := true, pendingRetry := some Role.skeptic }, true)
  | .ok a =>
    ({ s1 with skepticArguments := s1.skepticArguments ++ [a],
               skepSince := s1.skepSince + 1,
               skepticPending := false }, true)

/-- The resume branch of `runDebateRound` (script.js:1517-1521): when
`this.pendingTurnRetry` is set, it is read and nulled, a single
`getDebaterResponse` for the stored role runs and its result is
returned immediately — the other role is not attempted and
`interruptedTurn` is left untouched. -/
def retryPhase (s : Arena) (role : Role) (outcome : TurnOutcome) : Arena × Bool :=
  let s1 := { s with pendingRetry := none,
                     callLog := s.callLog ++ [s.currentRound] }
  match outcome with
  | .fail => (s1, false)
  | .interrupt => ({ s1 with paused := true, pendingRetry := some role }, true)
  | .ok a =>
    match role with
    | .advocate =>
      ({ s1 with advocateArguments := s1.advocateArguments ++ [a],
                 advSince := s1.advSince + 1 }, true)
    | .skeptic =>
      ({ s1 with skepticArguments := s1.skepticArguments ++ [a],
                 skepSince := s1.skepSince + 1 }, true)

/-- `runDebateRound` (script.js): Discovery preamble when
`currentRound === 1 && !discoveryDone`; then the `pendingTurnRetry`
resume branch when a retry is dangling; otherwise the advocate turn
(skipped when resuming an interrupted skeptic turn) followed by the
skeptic turn. -/
def roundStep (s : Arena) (i : LoopInput) : Arena × Bool :=
  if s.currentRound = 1 ∧ s.discoveryDone = false then
    match i.disc with
    | .questions => ({ s with paused := true }, true)
    | .empty => (s, true)
    | .error => (s, false)
  else
    match s.pendingRetry with
    | some role =>
      retryPhase s role (match role with | .advocate => i.adv | .skeptic => i.skep)
    | none =>
      if s.skepticPending = false then
        let s1 := { s with callLog := s.callLog ++ [s.currentRound] }
        match i.adv with
        | .fail => (s1, false)
        | .interrupt => ({ s1 with paused := true, pendingRetry := some Role.advocate }, true)
        | .ok a =>
          skepticPhase
            { s1 with advocateArguments := s1.advocateArguments ++ [a],
                      advSince := s1.advSince + 1 } i.skep
      else
        skepticPhase s i.skep

/-- `this.currentRound++` together with the ghost bookkeeping: record
whether the turns appended since the previous increment cover both
roles, then reset the since-counters. -/
def incrementRound (s : Arena) : Arena :=
  { s with currentRound := s.currentRound + 1,
           sound := s.sound && (decide (1 ≤ s.advSince) && decide (1 ≤ s.skepSince)),
           advSince := 0, skepSince := 0 }

/-- One iteration of the `while` body of `runDebateLoop`: the round-limit
guard, the round, consecutive-error bookkeeping, the conditional
increment (`if (this.discoveryDone && this.interruptedTurn === null)`),
and the post-increment limit check. -/
def loopIter (errors : Nat) (s : Arena) (i : LoopInput) : Arena × Nat :=
  if s.paused then (s, errors)
  else if MAX_FREE_ROUNDS < s.currentRound ∧ s.access = false then
    ({ s with paused := true, limitReached := true }, errors)
  else
    let r := roundStep s i
    if r.1.paused then (r.1, errors)
    else if r.2 = false then
      if MAX_CONSECUTIVE_ERRORS ≤ errors + 1 then
        ({ r.1 with paused := true }, errors + 1)
      else (r.1, errors + 1)
    else
      let s2 := if r.1.discoveryDone = true ∧ r.1.skepticPending = false
                then incrementRound r.1 else r.1
      if MAX_FREE_ROUNDS < s2.currentRound ∧ s2.access = false then
        ({ s2 with paused := true, limitReached := true }, 0)
      else (s2, 0)

/-- `runDebateLoop` with a fuel bound on the number of iterations;
`ins n` is the environment's behaviour in the `n`-th iteration. -/
def loopRun : Nat → Nat → Arena → (Nat → LoopInput) → Arena
  | 0, _, s, _ => s
  | fuel + 1, errors, s, ins =>
    if s.paused then s
    else
      let r := loopIter errors s (ins 0)
      if r.1.paused then r.1
      else loopRun fuel r.2 r.1 (fun n => ins (n + 1))

/-- User interactions between loop iterations, following
`submitClarification` and `togglePause` in script.js: answering a
Discovery batch (the branch guarded by `currentRound === 1 &&
!this.pendingTurnRetry`) clears the pause and marks discovery done;
answering an in-round clarification batch (the `pendingTurnRetry`
branch) nulls the retry and clears the pause; the pause button merely
toggles `isPaused` and — crucially — leaves `pendingTurnRetry` set; a
premium upgrade flips the entitlement read by
`canAccessUnlimitedRounds`. -/
inductive UserAction where
  | answerDiscovery
  | answerClarification
  | togglePause
  | upgrade

def userStep (s : Arena) : UserAction → Arena
  | .answerDiscovery =>
    if s.currentRound = 1 ∧ s.pendingRetry = none then
      { s with paused := false, discoveryDone := true }
    else s
  | .answerClarification =>
    if s.pendingRetry.isSome then
      { s with pendingRetry := none, paused := false }
    else s
  | .togglePause => { s with paused := !s.paused }
  | .upgrade => { s with access := true }

/-- The state set up by `proceedWithDebate` before the loop starts. -/
def initArena (access : Bool) : Arena :=
  { currentRound := 1, discoveryDone := false, skepticPending := false,
    pendingRetry := none, paused := false, limitReached := false,
    advocateArguments := [], skepticArguments := [], access := access,
    advSince := 0, skepSince := 0, sound := true, callLog := [] }

inductive Reachable : Arena → Prop where
  | init (access : Bool) : Reachable (initArena access)
  | loop (s : Arena) (errors : Nat) (i : LoopInput) :
      Reachable s → Reachable (loopIter errors s i).1
  | user (s : Arena) (a : UserAction) : Reachable s → Reachable (userStep s a)

/-- Reachability under the modal-resume discipline: the loop only runs
on states with no dangling retry, i.e. every clarification interrupt is
resumed by answering the modal (`submitClarification`, which nulls
`pendingTurnRetry`) rather than by the pause button (`togglePause`,
which does not). Without the side condition the resume branch of
`runDebateRound` can run one role's turn alone and let the loop
increment the counter — see the C1 counterexample trace. -/
inductive ModalReachable : Arena → Prop where
  | init (access : Bool) : ModalReachable (initArena access)
  | loop (s : Arena) (errors : Nat) (i : LoopInput) :
      ModalReachable s → (s.paused = true ∨ s.pendingRetry = none) →
      ModalReachable (loopIter errors s i).1
  | user (s : Arena) (a : UserAction) :
      ModalReachable s → ModalReachable (userStep s a)

/-- A concrete execution of the loop model: the Discovery batch is
answered; the advocate turn is interrupted by a clarification (setting
`pendingTurnRetry`); the user resumes with the pause button instead of
answering the modal (leaving `pendingTurnRetry` set); the next
iteration takes the resume branch, the retried advocate turn succeeds
alone, and the loop increments `currentRound`. -/
def pauseButtonResumeTrace : Arena :=
  let s1 := (loopIter 0 (initArena false)
    ⟨DiscOutcome.questions, TurnOutcome.fail, TurnOutcome.fail⟩).1
  let s2 := userStep s1 UserAction.answerDiscovery
  let s3 := (loopIter 0 s2
    ⟨DiscOutcome.empty, TurnOutcome.interrupt, TurnOutcome.fail⟩).1
  let s4 := userStep s3 UserAction.togglePause
  (loopIter 0 s4
    ⟨DiscOutcome.empty, TurnOutcome.ok "Advocate retry argument".data, TurnOutcome.fail⟩).1

/-- The loop invariant: a pending skeptic turn means the advocate turn
of the current round has already been appended, and every round-counter
increment so far was backed by both roles. -/
def ArenaInv (s : Arena) : Prop :=
  (s.skepticPending = true → 1 ≤ s.advSince) ∧ s.sound = true

/-! # Theorems -/

/-! ## Substring occurrence -/

theorem occurs_nil_right (pat : List Char) : Occurs pat [] ↔ pat = [] := by
  constructor
  · rintro ⟨a, b, h⟩
    have h1 := List.append_eq_nil.mp h.symm
    exact (List.append_eq_nil.mp h1.1).2
  · rintro rfl; exact ⟨[], [], rfl⟩

theorem occurs_cons (pat : List Char) (c : Char) (rest : List Char) :
    Occurs pat (c :: rest) ↔ (∃ t, c :: rest = pat ++ t) ∨ Occurs pat rest := by
  constructor
  · rintro ⟨a, b, h⟩
    cases a with
    | nil => exact Or.inl ⟨b, by simpa using h⟩
    | cons x a' =>
      simp only [List.cons_append] at h
      exact Or.inr ⟨a', b, (List.cons.injEq .. ▸ h).2⟩
  · rintro (⟨t, ht⟩ | ⟨a, b, h⟩)
    · exact ⟨[], t, by simpa using ht⟩
    · exact ⟨c :: a, b, by simp [h]⟩

theorem occurs_iff_containsSub (pat s : List Char) :
    Occurs pat s ↔ containsSub pat s = true := by
  induction s with
  | nil =>
    simp only [containsSub, firstIdx, occurs_nil_right]
    split <;> simp_all
  | cons c rest ih =>
    rw [occurs_cons, ih]
    simp only [containsSub, firstIdx]
    by_cases hp : pat.isPrefixOf (c :: rest)
    · have hex : ∃ t, c :: rest = pat ++ t := by
        rcases List.isPrefixOf_iff_prefix.mp hp with ⟨t, ht⟩
        exact ⟨t, ht.symm⟩
      simp [hp, hex]
    · have hnp : ¬ ∃ t, c :: rest = pat ++ t := by
        rintro ⟨t, ht⟩
        exact hp (List.isPrefixOf_iff_prefix.mpr ⟨t, ht.symm⟩)
      simp only [hp, if_false, hnp, false_or]
      cases firstIdx pat rest <;> simp

theorem occurs_of_contains {pat s : List Char} (h : containsSub pat s = true) :
    Occurs pat s :=
  (occurs_iff_containsSub pat s).mpr h

theorem not_occurs_of_contains {pat s : List Char} (h : containsSub pat s = false) :
    ¬ Occurs pat s := by
  rw [occurs_iff_containsSub]
  simp [h]

theorem contains_eq_false_of_not_occurs {pat s : List Char} (h : ¬ Occurs pat s) :
    containsSub pat s = false := by
  cases hc : containsSub pat s
  · rfl
  · exact absurd (occurs_of_contains hc) h

theorem firstIdx_eq_none_of_not_occurs {pat s : List Char} (h : ¬ Occurs pat s) :
    firstIdx pat s = none := by
  cases h' : firstIdx pat s with
  | none => rfl
  | some i =>
    exact absurd (occurs_of_contains (by simp [containsSub, h'])) h

/-- An occurrence inside a contiguous infix is an occurrence in the whole list. -/
theorem occurs_of_infix_occurs {pat s t : List Char} (hinf : s <:+: t)
    (h : Occurs pat s) : Occurs pat t := by
  rcases hinf with ⟨u, v, huv⟩
  rcases h with ⟨a, b, hab⟩
  exact ⟨u ++ a, b ++ v, by simp [← huv, hab]⟩

/-! ## Trimming -/

theorem jsTrim_infix_self (s : List Char) : jsTrim s <:+: s := by
  have h1 : s.dropWhile Char.isWhitespace <:+ s := List.dropWhile_suffix _
  have h2 : jsTrim s <+: s.dropWhile Char.isWhitespace := by
    rcases List.dropWhile_suffix (l := (s.dropWhile Char.isWhitespace).reverse)
      Char.isWhitespace with ⟨u, hu⟩
    refine ⟨u.reverse, ?_⟩
    have := congrArg List.reverse hu
    simpa [jsTrim] using this
  exact List.IsInfix.trans (List.IsPrefix.isInfix h2) (List.IsSuffix.isInfix h1)

theorem not_occurs_jsTrim {pat s : List Char} (h : ¬ Occurs pat s) :
    ¬ Occurs pat (jsTrim s) :=
  fun hc => h (occurs_of_infix_occurs (jsTrim_infix_self s) hc)

theorem dropWhile_idem (p : Char → Bool) (l : List Char) :
    (l.dropWhile p).dropWhile p = l.dropWhile p := by
  induction l with
  | nil => rfl
  | cons x xs ih =>
    by_cases hx : p x
    · simp [List.dropWhile_cons, hx, ih]
    · simp [List.dropWhile_cons, hx]

theorem dropWhile_cons_eq_self {p : Char → Bool} {c : Char} {l : List Char}
    (h : (c :: l).dropWhile p = c :: l) : p c = false := by
  by_contra hc
  rw [Bool.not_eq_false] at hc
  rw [List.dropWhile_cons, if_pos hc] at h
  have hlen := congrArg List.length h
  have hle := List.IsSuffix.length_le (List.dropWhile_suffix (l := l) p)
  simp only [List.length_cons] at hlen
  omega

/-- Right-trimming preserves the absence of leading matched characters. -/
theorem dropWhile_rtrim (p : Char → Bool) (m : List Char)
    (hm : m.dropWhile p = m) :
    ((m.reverse.dropWhile p).reverse).dropWhile p = (m.reverse.dropWhile p).reverse := by
  cases hr : (m.reverse.dropWhile p).reverse with
  | nil => rfl
  | cons c r' =>
    have hpre : (m.reverse.dropWhile p).reverse <+: m := by
      rcases List.dropWhile_suffix (l := m.reverse) p with ⟨u, hu⟩
      refine ⟨u.reverse, ?_⟩
      have := congrArg List.reverse hu
      simpa using this
    rw [hr] at hpre
    rcases hpre with ⟨v, hv⟩
    have hm' : m = c :: (r' ++ v) := by
      rw [← hv]; simp
    have hc : p c = false := by
      apply dropWhile_cons_eq_self (l := r' ++ v)
      rw [← hm', hm, hm']
    rw [List.dropWhile_cons, if_neg (by simp [hc])]

theorem jsTrim_idem (s : List Char) : jsTrim (jsTrim s) = jsTrim s := by
  unfold jsTrim
  rw [dropWhile_rtrim Char.isWhitespace (s.dropWhile Char.isWhitespace)
        (dropWhile_idem _ _),
      List.reverse_reverse, dropWhile_idem]

/-! ## The single-pass tag removal -/

theorem removeTagPassAux_id {closeTag openTag : List Char} :
    ∀ (fuel : Nat) (s : List Char), s.length ≤ fuel →
    ¬ Occurs closeTag s → ¬ Occurs openTag s →
    removeTagPassAux closeTag openTag fuel s = s := by
  intro fuel
  induction fuel with
  | zero =>
    intro s hlen _ _
    have : s = [] := List.length_eq_zero.mp (Nat.le_zero.mp hlen)
    simp [this, removeTagPassAux]
  | succ n ih =>
    intro s hlen hc ho
    cases s with
    | nil => simp [removeTagPassAux]
    | cons c rest =>
      have h1 : ¬ (closeTag ≠ [] ∧ closeTag.isPrefixOf (c :: rest)) := by
        rintro ⟨-, hp⟩
        rcases List.isPrefixOf_iff_prefix.mp hp with ⟨t, ht⟩
        exact hc ⟨[], t, by simp [ht.symm]⟩
      have h2 : ¬ (openTag ≠ [] ∧ openTag.isPrefixOf (c :: rest)) := by
        rintro ⟨-, hp⟩
        rcases List.isPrefixOf_iff_prefix.mp hp with ⟨t, ht⟩
        exact ho ⟨[], t, by simp [ht.symm]⟩
      rw [removeTagPassAux, if_neg h1, if_neg h2]
      have hcr : ¬ Occurs closeTag rest :=
        fun h => hc ((occurs_cons ..).mpr (Or.inr h))
      have hor : ¬ Occurs openTag rest :=
        fun h => ho ((occurs_cons ..).mpr (Or.inr h))
      rw [ih rest (by simp only [List.length_cons] at hlen; omega) hcr hor]

theorem removeTagPass_id {closeTag openTag : List Char} (s : List Char)
    (hc : ¬ Occurs closeTag s) (ho : ¬ Occurs openTag s) :
    removeTagPass closeTag openTag s = s :=
  removeTagPassAux_id s.length s le_rfl hc ho

/-- On an input containing none of the four delimiters, the client
parser returns empty thinking and the trimmed input as output. -/
theorem parseResponse_no_tags {s : List Char} (h1 : ¬ Occurs outOpen s)
    (h2 : ¬ Occurs outClose s) (h3 : ¬ Occurs thinkOpen s)
    (h4 : ¬ Occurs thinkClose s) :
    parseResponse s = ([], jsTrim s) := by
  by_cases hnil : s = []
  · subst hnil; rfl
  · have ho : firstIdx outOpen s = none := firstIdx_eq_none_of_not_occurs h1
    have ht : firstIdx thinkOpen s = none := firstIdx_eq_none_of_not_occurs h3
    have hco : containsSub outOpen s = false := contains_eq_false_of_not_occurs h1
    have hcto : containsSub thinkOpen s = false := contains_eq_false_of_not_occurs h3
    have hctc : containsSub thinkClose s = false := contains_eq_false_of_not_occurs h4
    simp only [parseResponse, if_neg hnil, extractBetween, extractAfter, ho, ht,
      Option.map_none', hctc, hcto, hco]
    by_cases htr : jsTrim s = []
    · simp [htr]
    · simp [htr, removeTagPass_id (jsTrim s) (not_occurs_jsTrim h2) (not_occurs_jsTrim h1),
        removeTagPass_id (jsTrim s) (not_occurs_jsTrim h4) (not_occurs_jsTrim h3),
        jsTrim_idem]

/-! ## The batch scan of `submitClarification` -/

theorem scanAnswers_spec (batch : List (List Char × List Char)) :
    scanAnswers batch = (answeredPairs batch, answeredPairs batch, hasEmptyAnswer batch) := by
  suffices h : ∀ a p b, batch.foldl scanStep (a, p, b) =
      (a ++ answeredPairs batch, p ++ answeredPairs batch, b || hasEmptyAnswer batch) by
    simpa [scanAnswers] using h [] [] false
  induction batch with
  | nil => intro a p b; simp [answeredPairs, hasEmptyAnswer]
  | cons qa rest ih =>
    intro a p b
    by_cases hv : jsTrim qa.2 = []
    · simp only [List.foldl_cons, scanStep, hv, if_pos rfl, ih,
        answeredPairs, List.filterMap_cons, hasEmptyAnswer, List.any_cons]
      simp [hv, answeredPairs, hasEmptyAnswer]
    · simp only [List.foldl_cons, scanStep, if_neg hv, ih]
      have hne : (jsTrim qa.2).isEmpty = false := by
        simp [List.isEmpty_iff, hv]
      simp [hv, answeredPairs, hasEmptyAnswer, hne]

/-! ## Loop-model facts -/

theorem skepticPhase_preserves (s : Arena) (o : TurnOutcome) :
    (skepticPhase s o).1.currentRound = s.currentRound ∧
    (skepticPhase s o).1.discoveryDone = s.discoveryDone ∧
    (skepticPhase s o).1.access = s.access ∧
    (skepticPhase s o).1.sound = s.sound ∧
    (skepticPhase s o).1.advSince = s.advSince := by
  cases o <;> exact ⟨rfl, rfl, rfl, rfl, rfl⟩

theorem skepticPhase_callLog (s : Arena) (o : TurnOutcome) :
    (skepticPhase s o).1.callLog = s.callLog ++ [s.currentRound] := by
  cases o <;> rfl

theorem retryPhase_preserves (s : Arena) (role : Role) (o : TurnOutcome) :
    (retryPhase s role o).1.currentRound = s.currentRound ∧
    (retryPhase s role o).1.discoveryDone = s.discoveryDone ∧
    (retryPhase s role o).1.access = s.access ∧
    (retryPhase s role o).1.sound = s.sound := by
  cases o with
  | ok a => cases role <;> exact ⟨rfl, rfl, rfl, rfl⟩
  | interrupt => exact ⟨rfl, rfl, rfl, rfl⟩
  | fail => exact ⟨rfl, rfl, rfl, rfl⟩

theorem retryPhase_callLog (s : Arena) (role : Role) (o : TurnOutcome) :
    (retryPhase s role o).1.callLog = s.callLog ++ [s.currentRound] := by
  cases o with
  | ok a => cases role <;> rfl
  | interrupt => rfl
  | fail => rfl

theorem roundStep_preserves (s : Arena) (i : LoopInput) :
    (roundStep s i).1.currentRound = s.currentRound ∧
    (roundStep s i).1.discoveryDone = s.discoveryDone ∧
    (roundStep s i).1.access = s.access ∧
    (roundStep s i).1.sound = s.sound := by
  obtain ⟨d, a, k⟩ := i
  unfold roundStep
  by_cases h1 : s.currentRound = 1 ∧ s.discoveryDone = false
  · rw [if_pos h1]
    cases d <;> exact ⟨rfl, rfl, rfl, rfl⟩
  · rw [if_neg h1]
    cases hpr : s.pendingRetry with
    | some role => exact retryPhase_preserves s role _
    | none =>
      by_cases h2 : s.skepticPending = false
      · rw [if_pos h2]
        cases a with
        | fail => exact ⟨rfl, rfl, rfl, rfl⟩
        | interrupt => exact ⟨rfl, rfl, rfl, rfl⟩
        | ok arg => cases k <;> exact ⟨rfl, rfl, rfl, rfl⟩
      · rw [if_neg h2]
        cases k <;> exact ⟨rfl, rfl, rfl, rfl⟩

theorem roundStep_callLog (s : Arena) (i : LoopInput) :
    ∀ r ∈ (roundStep s i).1.callLog, r ∈ s.callLog ∨ r = s.currentRound := by
  obtain ⟨d, a, k⟩ := i
  unfold roundStep
  by_cases h1 : s.currentRound = 1 ∧ s.discoveryDone = false
  · rw [if_pos h1]
    cases d <;> exact fun r hr => Or.inl hr
  · rw [if_neg h1]
    cases hpr : s.pendingRetry with
    | some role =>
      intro r hr
      rw [retryPhase_callLog] at hr
      simp only [List.mem_append, List.mem_singleton] at hr
      tauto
    | none =>
      by_cases h2 : s.skepticPending = false
      · rw [if_pos h2]
        cases a with
        | fail =>
          intro r hr
          simp only [List.mem_append, List.mem_singleton] at hr
          tauto
        | interrupt =>
          intro r hr
          simp only [List.mem_append, List.mem_singleton] at hr
          tauto
        | ok arg =>
          intro r hr
          rw [skepticPhase_callLog] at hr
          simp only [List.mem_append, List.mem_singleton] at hr
          tauto
      · rw [if_neg h2]
        intro r hr
        rw [skepticPhase_callLog] at hr
        simp only [List.mem_append, List.mem_singleton] at hr
        tauto

theorem arenaInv_roundStep {s : Arena} (i : LoopInput) (hpr : s.pendingRetry = none)
    (h : ArenaInv s) : ArenaInv (roundStep s i).1 := by
  obtain ⟨hpend, hsound⟩ := h
  obtain ⟨d, a, k⟩ := i
  unfold roundStep
  by_cases h1 : s.currentRound = 1 ∧ s.discoveryDone = false
  · rw [if_pos h1]
    cases d <;> exact ⟨hpend, hsound⟩
  · rw [if_neg h1]
    simp only [hpr]
    by_cases h2 : s.skepticPending = false
    · rw [if_pos h2]
      cases a with
      | fail => exact ⟨hpend, hsound⟩
      | interrupt => exact ⟨hpend, hsound⟩
      | ok arg =>
        cases k with
        | fail => exact ⟨fun _ => Nat.succ_le_succ (Nat.zero_le _), hsound⟩
        | interrupt => exact ⟨fun _ => Nat.succ_le_succ (Nat.zero_le _), hsound⟩
        | ok arg2 => exact ⟨fun hx => by simp [skepticPhase] at hx, hsound⟩
    · rw [if_neg h2]
      have hsp : s.skepticPending = true := by
        revert h2; cases s.skepticPending <;> simp
      cases k with
      | fail => exact ⟨fun _ => hpend hsp, hsound⟩
      | interrupt => exact ⟨fun _ => hpend hsp, hsound⟩
      | ok arg2 => exact ⟨fun hx => by simp [skepticPhase] at hx, hsound⟩

/-- When a `runDebateRound` ends successfully, unpaused, with no pending
skeptic turn and discovery done (the exact guard of the `currentRound`
increment), both roles have appended a turn since the last increment. -/
theorem roundStep_complete {s : Arena} (i : LoopInput) (hpr : s.pendingRetry = none)
    (hinv : s.skepticPending = true → 1 ≤ s.advSince)
    (hok : (roundStep s i).2 = true)
    (hp : (roundStep s i).1.paused = false)
    (hsp : (roundStep s i).1.skepticPending = false)
    (hd : (roundStep s i).1.discoveryDone = true) :
    1 ≤ (roundStep s i).1.advSince ∧ 1 ≤ (roundStep s i).1.skepSince := by
  obtain ⟨d, a, k⟩ := i
  unfold roundStep at hok hp hsp hd ⊢
  by_cases h1 : s.currentRound = 1 ∧ s.discoveryDone = false
  · rw [if_pos h1] at hok hp hsp hd ⊢
    cases d with
    | questions => simp at hp
    | empty => rw [h1.2] at hd; exact absurd hd (by simp)
    | error => simp at hok
  · rw [if_neg h1] at hok hp hsp hd ⊢
    simp only [hpr] at hok hp hsp hd ⊢
    by_cases h2 : s.skepticPending = false
    · rw [if_pos h2] at hok hp hsp hd ⊢
      cases a with
      | fail => simp at hok
      | interrupt => simp at hp
      | ok arg =>
        cases k with
        | fail => simp [skepticPhase] at hok
        | interrupt => simp [skepticPhase] at hp
        | ok arg2 =>
          exact ⟨Nat.succ_le_succ (Nat.zero_le _), Nat.succ_le_succ (Nat.zero_le _)⟩
    · rw [if_neg h2] at hok hp hsp hd ⊢
      have hsp0 : s.skepticPending = true := by
        revert h2; cases s.skepticPending <;> simp
      cases k with
      | fail => simp [skepticPhase] at hok
      | interrupt => simp [skepticPhase] at hp
      | ok arg2 => exact ⟨hinv hsp0, Nat.succ_le_succ (Nat.zero_le _)⟩

theorem arenaInv_loopIter {s : Arena} (errors : Nat) (i : LoopInput)
    (hside : s.paused = true ∨ s.pendingRetry = none) (h : ArenaInv s) :
    ArenaInv (loopIter errors s i).1 := by
  simp only [loopIter]
  by_cases hps : s.paused = true
  · rw [if_pos hps]; exact h
  · have hpr : s.pendingRetry = none := by
      rcases hside with hd | hd
      · exact absurd hd hps
      · exact hd
    rw [if_neg hps]
    by_cases hg : MAX_FREE_ROUNDS < s.currentRound ∧ s.access = false
    · rw [if_pos hg]; exact ⟨h.1, h.2⟩
    · rw [if_neg hg]
      by_cases hrp : (roundStep s i).1.paused = true
      · rw [if_pos hrp]; exact arenaInv_roundStep i hpr h
      · rw [if_neg hrp]
        have hinv2 := arenaInv_roundStep i hpr h
        by_cases hrf : (roundStep s i).2 = false
        · rw [if_pos hrf]
          by_cases he : MAX_CONSECUTIVE_ERRORS ≤ errors + 1
          · rw [if_pos he]; exact ⟨hinv2.1, hinv2.2⟩
          · rw [if_neg he]; exact hinv2
        · rw [if_neg hrf]
          by_cases hinc : (roundStep s i).1.discoveryDone = true ∧
              (roundStep s i).1.skepticPending = false
          · rw [if_pos hinc]
            have hok : (roundStep s i).2 = true := by
              revert hrf; cases (roundStep s i).2 <;> simp
            have hpf : (roundStep s i).1.paused = false := by
              revert hrp; cases (roundStep s i).1.paused <;> simp
            have hcomp := roundStep_complete i hpr h.1 hok hpf hinc.2 hinc.1
            have hnext : ArenaInv (incrementRound (roundStep s i).1) := by
              constructor
              · intro hx
                have hx' : (roundStep s i).1.skepticPending = true := hx
                rw [hinc.2] at hx'
                exact absurd hx' (by simp)
              · simp [incrementRound, hinv2.2, hcomp.1, hcomp.2]
            by_cases hg2 : MAX_FREE_ROUNDS < (incrementRound (roundStep s i).1).currentRound ∧
                (incrementRound (roundStep s i).1).access = false
            · rw [if_pos hg2]; exact ⟨hnext.1, hnext.2⟩
            · rw [if_neg hg2]; exact hnext
          · rw [if_neg hinc]
            by_cases hg2 : MAX_FREE_ROUNDS < (roundStep s i).1.currentRound ∧
                (roundStep s i).1.access = false
            · rw [if_pos hg2]; exact ⟨hinv2.1, hinv2.2⟩
            · rw [if_neg hg2]; exact hinv2

theorem arenaInv_userStep {s : Arena} (a : UserAction) (h : ArenaInv s) :
    ArenaInv (userStep s a) := by
  cases a <;> simp only [userStep] <;> (try split_ifs) <;> exact ⟨h.1, h.2⟩

theorem arenaInv_modalReachable {s : Arena} (h : ModalReachable s) : ArenaInv s := by
  induction h with
  | init b => exact ⟨fun hx => by simp [initArena] at hx, rfl⟩
  | loop s errors i hs hside ih => exact arenaInv_loopIter errors i hside ih
  | user s a hs ih => exact arenaInv_userStep a ih

theorem loopIter_round_change (errors : Nat) (s : Arena) (i : LoopInput) :
    (loopIter errors s i).1.currentRound = s.currentRound ∨
    (loopIter errors s i).1.currentRound = s.currentRound + 1 := by
  have hr := (roundStep_preserves s i).1
  simp only [loopIter]
  by_cases hps : s.paused = true
  · rw [if_pos hps]; exact Or.inl rfl
  · rw [if_neg hps]
    by_cases hg : MAX_FREE_ROUNDS < s.currentRound ∧ s.access = false
    · rw [if_pos hg]; exact Or.inl rfl
    · rw [if_neg hg]
      by_cases hrp : (roundStep s i).1.paused = true
      · rw [if_pos hrp]; exact Or.inl hr
      · rw [if_neg hrp]
        by_cases hrf : (roundStep s i).2 = false
        · rw [if_pos hrf]
          by_cases he : MAX_CONSECUTIVE_ERRORS ≤ errors + 1
          · rw [if_pos he]; exact Or.inl hr
          · rw [if_neg he]; exact Or.inl hr
        · rw [if_neg hrf]
          by_cases hinc : (roundStep s i).1.discoveryDone = true ∧
              (roundStep s i).1.skepticPending = false
          · rw [if_pos hinc]
            by_cases hg2 : MAX_FREE_ROUNDS < (incrementRound (roundStep s i).1).currentRound ∧
                (incrementRound (roundStep s i).1).access = false
            · rw [if_pos hg2]
              exact Or.inr (by show (roundStep s i).1.currentRound + 1 = _; rw [hr])
            · rw [if_neg hg2]
              exact Or.inr (by show (roundStep s i).1.currentRound + 1 = _; rw [hr])
          · rw [if_neg hinc]
            by_cases hg2 : MAX_FREE_ROUNDS < (roundStep s i).1.currentRound ∧
                (roundStep s i).1.access = false
            · rw [if_pos hg2]; exact Or.inl hr
            · rw [if_neg hg2]; exact Or.inl hr

theorem loopIter_round_of_pause (errors : Nat) (s : Arena) (i : LoopInput)
    (h : (roundStep s i).1.paused = true) :
    (loopIter errors s i).1.currentRound = s.currentRound := by
  simp only [loopIter]
  by_cases hps : s.paused = true
  · rw [if_pos hps]
  · rw [if_neg hps]
    by_cases hg : MAX_FREE_ROUNDS < s.currentRound ∧ s.access = false
    · rw [if_pos hg]
    · rw [if_neg hg, if_pos h]
      exact (roundStep_preserves s i).1

theorem loopIter_access (errors : Nat) (s : Arena) (i : LoopInput) :
    (loopIter errors s i).1.access = s.access := by
  have hr := (roundStep_preserves s i).2.2.1
  simp only [loopIter]
  by_cases hps : s.paused = true
  · rw [if_pos hps]
  · rw [if_neg hps]
    by_cases hg : MAX_FREE_ROUNDS < s.currentRound ∧ s.access = false
    · rw [if_pos hg]
    · rw [if_neg hg]
      by_cases hrp : (roundStep s i).1.paused = true
      · rw [if_pos hrp]; exact hr
      · rw [if_neg hrp]
        by_cases hrf : (roundStep s i).2 = false
        · rw [if_pos hrf]
          by_cases he : MAX_CONSECUTIVE_ERRORS ≤ errors + 1
          · rw [if_pos he]; exact hr
          · rw [if_neg he]; exact hr
        · rw [if_neg hrf]
          by_cases hinc : (roundStep s i).1.discoveryDone = true ∧
              (roundStep s i).1.skepticPending = false
          · rw [if_pos hinc]
            by_cases hg2 : MAX_FREE_ROUNDS < (incrementRound (roundStep s i).1).currentRound ∧
                (incrementRound (roundStep s i).1).access = false
            · rw [if_pos hg2]; exact hr
            · rw [if_neg hg2]; exact hr
          · rw [if_neg hinc]
            by_cases hg2 : MAX_FREE_ROUNDS < (roundStep s i).1.currentRound ∧
                (roundStep s i).1.access = false
            · rw [if_pos hg2]; exact hr
            · rw [if_neg hg2]; exact hr

theorem loopIter_callLog (errors : Nat) (s : Arena) (i : LoopInput)
    (hacc : s.access = false) :
    ∀ r ∈ (loopIter errors s i).1.callLog, r ∈ s.callLog ∨ r ≤ MAX_FREE_ROUNDS := by
  simp only [loopIter]
  by_cases hps : s.paused = true
  · rw [if_pos hps]; exact fun r hr => Or.inl hr
  · rw [if_neg hps]
    by_cases hg : MAX_FREE_ROUNDS < s.currentRound ∧ s.access = false
    · rw [if_pos hg]; exact fun r hr => Or.inl hr
    · rw [if_neg hg]
      have hle : s.currentRound ≤ MAX_FREE_ROUNDS := by
        rcases Nat.lt_or_ge MAX_FREE_ROUNDS s.currentRound with hlt | hge
        · exact absurd ⟨hlt, hacc⟩ hg
        · exact hge
      have key : ∀ r ∈ (roundStep s i).1.callLog, r ∈ s.callLog ∨ r ≤ MAX_FREE_ROUNDS := by
        intro r hr
        rcases roundStep_callLog s i r hr with h | h
        · exact Or.inl h
        · exact Or.inr (h ▸ hle)
      by_cases hrp : (roundStep s i).1.paused = true
      · rw [if_pos hrp]; exact key
      · rw [if_neg hrp]
        by_cases hrf : (roundStep s i).2 = false
        · rw [if_pos hrf]
          by_cases he : MAX_CONSECUTIVE_ERRORS ≤ errors + 1
          · rw [if_pos he]; exact key
          · rw [if_neg he]; exact key
        · rw [if_neg hrf]
          by_cases hinc : (roundStep s i).1.discoveryDone = true ∧
              (roundStep s i).1.skepticPending = false
          · rw [if_pos hinc]
            by_cases hg2 : MAX_FREE_ROUNDS < (incrementRound (roundStep s i).1).currentRound ∧
                (incrementRound (roundStep s i).1).access = false
            · rw [if_pos hg2]; exact key
            · rw [if_neg hg2]; exact key
          · rw [if_neg hinc]
            by_cases hg2 : MAX_FREE_ROUNDS < (roundStep s i).1.currentRound ∧
                (roundStep s i).1.access = false
            · rw [if_pos hg2]; exact key
            · rw [if_neg hg2]; exact key

theorem loopIter_halt (errors : Nat) (s : Arena) (i : LoopInput)
    (hps : s.paused = false) (hacc : s.access = false)
    (hcap : MAX_FREE_ROUNDS < s.currentRound) :
    loopIter errors s i = ({ s with paused := true, limitReached := true }, errors) := by
  simp only [loopIter]
  rw [if_neg (by simp [hps]), if_pos ⟨hcap, hacc⟩]

theorem loopRun_callLog : ∀ (fuel errors : Nat) (s : Arena) (ins : Nat → LoopInput),
    s.access = false →
    ∀ r ∈ (loopRun fuel errors s ins).callLog, r ∈ s.callLog ∨ r ≤ MAX_FREE_ROUNDS := by
  intro fuel
  induction fuel with
  | zero => exact fun errors s ins hacc r hr => Or.inl hr
  | succ n ih =>
    intro errors s ins hacc r hr
    simp only [loopRun] at hr
    by_cases hps : s.paused = true
    · rw [if_pos hps] at hr; exact Or.inl hr
    · rw [if_neg hps] at hr
      by_cases hrp : (loopIter errors s (ins 0)).1.paused = true
      · rw [if_pos hrp] at hr
        exact loopIter_callLog errors s (ins 0) hacc r hr
      · rw [if_neg hrp] at hr
        have hacc2 : (loopIter errors s (ins 0)).1.access = false := by
          rw [loopIter_access]; exact hacc
        rcases ih (loopIter errors s (ins 0)).2 (loopIter errors s (ins 0)).1 _ hacc2 r hr with
          h | h
        · exact loopIter_callLog errors s (ins 0) hacc r h
        · exact Or.inr h

theorem loopRun_halt (fuel errors : Nat) (s : Arena) (ins : Nat → LoopInput)
    (hps : s.paused = false) (hacc : s.access = false)
    (hcap : MAX_FREE_ROUNDS < s.currentRound) :
    loopRun (fuel + 1) errors s ins = { s with paused := true, limitReached := true } := by
  simp only [loopRun]
  rw [if_neg (by simp [hps]), loopIter_halt errors s (ins 0) hps hacc hcap, if_pos rfl]

/-! ## Small auxiliary facts for the claim theorems -/

theorem jsTrim_nil : jsTrim [] = [] := rfl

theorem not_phrase3 {p1 p2 p3 t : List Char}
    (h1 : containsSub p1 t = false) (h2 : containsSub p2 t = false)
    (h3 : containsSub p3 t = false) :
    ¬ (Occurs p1 t ∨ Occurs p2 t ∨ Occurs p3 t) := by
  rintro (h | h | h)
  exacts [absurd h (not_occurs_of_contains h1), absurd h (not_occurs_of_contains h2),
    absurd h (not_occurs_of_contains h3)]

theorem not_phrase2 {p1 p2 t : List Char}
    (h1 : containsSub p1 t = false) (h2 : containsSub p2 t = false) :
    ¬ (Occurs p1 t ∨ Occurs p2 t) := by
  rintro (h | h)
  exacts [absurd h (not_occurs_of_contains h1), absurd h (not_occurs_of_contains h2)]

/-! ## Claim C1 -/

/-- C1 (amended): the server-side session field `round` increments on
every stored turn, so it does not satisfy the claim (see the
counterexample). For the client counter: each loop iteration changes
`currentRound` by at most 1; an iteration whose round ends paused for a
clarification leaves it unchanged; and on every execution that resumes
clarification interrupts by answering the modal — so that the loop
never runs with a dangling `pendingTurnRetry` (`ModalReachable`) — the
ghost flag `sound` still holds: every increment performed was backed by
at least one advocate turn and one skeptic turn appended since the
previous increment. Resuming an advocate interrupt with the pause
button instead leaves `pendingTurnRetry` set; the resume branch of
`runDebateRound` then runs the advocate turn alone and the loop
increments the counter with no skeptic turn since the last increment —
the counterexample exhibits that reachable trace. -/
theorem claim1_round_counter (s : Arena) (hs : ModalReachable s) :
    s.sound = true ∧
    (∀ errors i, (loopIter errors s i).1.currentRound = s.currentRound ∨
      (loopIter errors s i).1.currentRound = s.currentRound + 1) ∧
    (∀ errors i, (roundStep s i).1.paused = true →
      (loopIter errors s i).1.currentRound = s.currentRound) :=
  ⟨(arenaInv_modalReachable hs).2,
   fun errors i => loopIter_round_change errors s i,
   fun errors i h => loopIter_round_of_pause errors s i h⟩

/-- Witness for C1 at the loop start state of a non-premium session. -/
theorem claim1_round_counter_witness :
    (initArena false).sound = true ∧
    (∀ errors i,
      (loopIter errors (initArena false) i).1.currentRound = (initArena false).currentRound ∨
      (loopIter errors (initArena false) i).1.currentRound = (initArena false).currentRound + 1) ∧
    (∀ errors i, (roundStep (initArena false) i).1.paused = true →
      (loopIter errors (initArena false) i).1.currentRound = (initArena false).currentRound) :=
  claim1_round_counter (initArena false) (ModalReachable.init false)

/-- Counterexample to C1 as stated, on both sides. Server: the session
counter (`debate.round`, incremented at server.js line 714) goes from 0
to 1 after a single advocate turn, with no skeptic turn ever appended.
Client: the pause-button resume trace — advocate turn interrupted by a
clarification, then resumed via `togglePause`, which does not null
`pendingTurnRetry` — is reachable and ends with `currentRound`
incremented to 2 while holding one advocate argument and no skeptic
argument, the ghost soundness flag now false: an increment not backed
by both roles, in a round that was interrupted by a clarification. -/
theorem claim1_round_counterexample :
    (freshDebate "An app".data []).round = 0 ∧
    (debateTurnStep (freshDebate "An app".data []) Role.advocate []
        "<thinking>t</thinking><output>Go.</output>".data).2.round = 1 ∧
    ((debateTurnStep (freshDebate "An app".data []) Role.advocate []
        "<thinking>t</thinking><output>Go.</output>".data).2.history.filter
        (fun t => t.role == Role.skeptic)).length = 0 ∧
    ((debateTurnStep (freshDebate "An app".data []) Role.advocate []
        "<thinking>t</thinking><output>Go.</output>".data).2.history.filter
        (fun t => t.role == Role.advocate)).length = 1 ∧
    Reachable pauseButtonResumeTrace ∧
    pauseButtonResumeTrace.currentRound = 2 ∧
    pauseButtonResumeTrace.advocateArguments.length = 1 ∧
    pauseButtonResumeTrace.skepticArguments = [] ∧
    pauseButtonResumeTrace.sound = false := by
  refine ⟨rfl, by decide, by decide, by decide, ?_, by decide, by decide, by decide, by decide⟩
  exact Reachable.loop _ 0 _
    (Reachable.user _ UserAction.togglePause
      (Reachable.loop _ 0 _
        (Reachable.user _ UserAction.answerDiscovery
          (Reachable.loop _ 0 _ (Reachable.init false)))))

/-! ## Claim C2 -/

/-- C2 (amended): the server-side final-argument extraction follows the
three-branch precedence — a well-formed output segment yields its
(trimmed) contents; an opening tag with no closing tag after it yields
everything after the opening tag, trimmed; no opening tag at all yields
the entire raw output verbatim. The client display parser agrees with
the last branch only when the text contains no thinking tags either
(its `</thinking>` fallback otherwise takes precedence, see the
counterexample); with none of the four tags present it returns the
trimmed raw text. -/
theorem claim2_extraction_precedence :
    (∀ s, ¬ Occurs outOpen s → extractOutputServer s = s) ∧
    (∀ s i, firstIdx outOpen s = some i →
      ¬ Occurs outClose (s.drop (i + outOpen.length)) →
      extractOutputServer s = jsTrim (s.drop (i + outOpen.length))) ∧
    (∀ s i j, firstIdx outOpen s = some i →
      firstIdx outClose (s.drop (i + outOpen.length)) = some j →
      extractOutputServer s = jsTrim ((s.drop (i + outOpen.length)).take j)) ∧
    (∀ s, ¬ Occurs outOpen s → ¬ Occurs outClose s → ¬ Occurs thinkOpen s →
      ¬ Occurs thinkClose s → (parseResponse s).2 = jsTrim s) := by
  refine ⟨?_, ?_, ?_, ?_⟩
  · intro s h
    simp only [extractOutputServer, firstIdx_eq_none_of_not_occurs h]
  · intro s i h1 h2
    simp only [extractOutputServer, h1, firstIdx_eq_none_of_not_occurs h2]
  · intro s i j h1 h2
    simp only [extractOutputServer, h1, h2]
  · intro s h1 h2 h3 h4
    rw [parseResponse_no_tags h1 h2 h3 h4]

/-- Witness for C2: one concrete input per branch. -/
theorem claim2_extraction_precedence_witness :
    extractOutputServer "no tags here".data = "no tags here".data ∧
    extractOutputServer "<output> tail only".data = "tail only".data ∧
    extractOutputServer "x<output> mid </output>y".data = "mid".data ∧
    (parseResponse "  plain answer  ".data).2 = "plain answer".data := by
  refine ⟨?_, ?_, ?_, ?_⟩
  · exact claim2_extraction_precedence.1 _ (not_occurs_of_contains (by decide))
  · exact (claim2_extraction_precedence.2.1 _ 0 (by decide)
      (not_occurs_of_contains (by decide))).trans (by decide)
  · exact (claim2_extraction_precedence.2.2.1 _ 1 5 (by decide) (by decide)).trans (by decide)
  · exact (claim2_extraction_precedence.2.2.2 _ (not_occurs_of_contains (by decide))
      (not_occurs_of_contains (by decide)) (not_occurs_of_contains (by decide))
      (not_occurs_of_contains (by decide))).trans (by decide)

/-- Counterexample to C2 as stated: the input contains no output
delimiters at all, so the claimed precedence would make the entire raw
text the final argument; the client parser returns only the text after
the closing thinking tag. -/
theorem claim2_client_counterexample :
    containsSub outOpen "<thinking>r</thinking>final".data = false ∧
    containsSub outClose "<thinking>r</thinking>final".data = false ∧
    (parseResponse "<thinking>r</thinking>final".data).2 = "final".data ∧
    (parseResponse "<thinking>r</thinking>final".data).2 ≠
      "<thinking>r</thinking>final".data := by
  refine ⟨by decide, by decide, by decide, by decide⟩

/-! ## Claim C3 -/

/-- C3 (amended): a batch submission with any empty required answer is
rejected — the modal stays open and nothing is resumed — but the
non-empty answers of the batch have already been appended to the
clarifications collection at that point, so the state is NOT left
unchanged; when every answer is non-empty the modal is closed, all
answered pairs are appended (a second time through the Discovery
continuation when the batch is a Discovery batch) and the suspended
turn is resumed. -/
theorem claim3_batch_submission (s : ClientState) (batch : List (List Char × List Char)) :
    (hasEmptyAnswer batch = true → batch ≠ [] →
      submitClarification s batch [] [] =
        { s with clarifications := s.clarifications ++ answeredPairs batch }) ∧
    (hasEmptyAnswer batch = false →
      (submitClarification s batch [] []).modalOpen = false ∧
      (submitClarification s batch [] []).clarifications =
        s.clarifications ++ answeredPairs batch ++
          (if s.isPreDebate = false ∧ s.currentRound = 1 ∧ s.pendingTurnRetry = false
           then answeredPairs batch else []) ∧
      (s.isPreDebate = false → s.pendingTurnRetry = true →
        (submitClarification s batch [] []).paused = false ∧
        (submitClarification s batch [] []).pendingTurnRetry = false) ∧
      (s.isPreDebate = false → s.currentRound = 1 → s.pendingTurnRetry = false →
        (submitClarification s batch [] []).paused = false ∧
        (submitClarification s batch [] []).discoveryDone = true)) := by
  have hscan := scanAnswers_spec batch
  constructor
  · intro hemp hne
    simp only [submitClarification, hscan, hemp, jsTrim_nil, ne_eq,
      not_true_eq_false, false_and, if_false, ite_false]
    rw [if_pos ⟨by simp, hne⟩]
  · intro hemp
    simp only [submitClarification, hscan, hemp, jsTrim_nil, ne_eq,
      not_true_eq_false, false_and, if_false, ite_false]
    rw [if_neg (by simp)]
    by_cases hpre : s.isPreDebate = true
    · rw [if_pos hpre]
      refine ⟨rfl, ?_, ?_, ?_⟩
      · rw [if_neg (by simp [hpre])]
        simp
      · intro hpre2 _
        rw [hpre2] at hpre
        exact absurd hpre (by simp)
      · intro hpre2 _ _
        rw [hpre2] at hpre
        exact absurd hpre (by simp)
    · rw [if_neg hpre]
      have hpre' : s.isPreDebate = false := by
        revert hpre; cases s.isPreDebate <;> simp
      by_cases hdisc : s.currentRound = 1 ∧ s.pendingTurnRetry = false
      · rw [if_pos hdisc]
        refine ⟨rfl, ?_, ?_, ?_⟩
        · rw [if_pos ⟨hpre', hdisc.1, hdisc.2⟩]
        · intro _ hptr
          rw [hdisc.2] at hptr
          exact absurd hptr (by simp)
        · intro _ _ _
          exact ⟨rfl, rfl⟩
      · rw [if_neg hdisc]
        by_cases hptr : s.pendingTurnRetry = true
        · rw [if_pos hptr]
          refine ⟨rfl, ?_, ?_, ?_⟩
          · rw [if_neg (fun hcon => by rw [hcon.2.2] at hptr; exact absurd hptr (by simp))]
            simp
          · intro _ _
            exact ⟨rfl, rfl⟩
          · intro _ h1 hpf
            rw [hpf] at hptr
            exact absurd hptr (by simp)
        · rw [if_neg hptr]
          have hptr' : s.pendingTurnRetry = false := by
            revert hptr; cases s.pendingTurnRetry <;> simp
          refine ⟨rfl, ?_, ?_, ?_⟩
          · rw [if_neg (fun hcon => hdisc ⟨hcon.2.1, hcon.2.2⟩)]
            simp
          · intro _ hp2
            rw [hptr'] at hp2
            exact absurd hp2 (by simp)
          · intro _ h1 hp3
            exact absurd ⟨h1, hp3⟩ hdisc

/-- Witness for C3 at a concrete fact-check resume state and an
all-answered batch. -/
theorem claim3_batch_submission_witness :
    (submitClarification ⟨[], true, true, false, true, 2, true⟩
      [("How many users?".data, "Twenty".data)] [] []).modalOpen = false ∧
    (submitClarification ⟨[], true, true, false, true, 2, true⟩
      [("How many users?".data, "Twenty".data)] [] []).clarifications =
      [⟨"How many users?".data, "Twenty".data⟩] ∧
    (submitClarification ⟨[], true, true, false, true, 2, true⟩
      [("How many users?".data, "Twenty".data)] [] []).paused = false ∧
    (submitClarification ⟨[], true, true, false, true, 2, true⟩
      [("How many users?".data, "Twenty".data)] [] []).pendingTurnRetry = false := by
  have h := (claim3_batch_submission ⟨[], true, true, false, true, 2, true⟩
    [("How many users?".data, "Twenty".data)]).2 (by decide)
  refine ⟨h.1, ?_, (h.2.2.1 rfl rfl).1, (h.2.2.1 rfl rfl).2⟩
  rw [h.2.1]
  decide

/-- Counterexample to C3 as stated: with one answer filled and one
empty, the submission is rejected (modal still open, still paused) yet
the filled pair has been appended to the clarifications collection. -/
theorem claim3_partial_append_counterexample :
    (submitClarification ⟨[], true, true, false, true, 2, true⟩
      [("How many users?".data, "Twenty".data), ("Price?".data, [])] [] []).modalOpen
      = true ∧
    (submitClarification ⟨[], true, true, false, true, 2, true⟩
      [("How many users?".data, "Twenty".data), ("Price?".data, [])] [] []).paused
      = true ∧
    (submitClarification ⟨[], true, true, false, true, 2, true⟩
      [("How many users?".data, "Twenty".data), ("Price?".data, [])] [] []).clarifications
      = [⟨"How many users?".data, "Twenty".data⟩] := by
  refine ⟨by decide, by decide, by decide⟩

/-! ## Claim C4 -/

/-- C4 (code bug): failing input — answering the Discovery batch
question "Price?" with "Freemium". The client pushes the pair into its
clarifications twice (once during the input scan, once more in the
Discovery continuation), the next debate-turn request carries both
copies, and the server merge — which only filters against the questions
already stored, never within the incoming batch — appends both. The
stored collection then holds two entries with identical question text,
violating the claimed invariant (and the dedup comment in server.js). -/
theorem claim4_duplicate_question_bug :
    (submitClarification ⟨[], true, true, false, false, 1, false⟩
        [("Price?".data, "Freemium".data)] [] []).clarifications =
      [⟨"Price?".data, "Freemium".data⟩, ⟨"Price?".data, "Freemium".data⟩] ∧
    ((mergeClarifications (freshDebate "A note app".data [])
        (submitClarification ⟨[], true, true, false, false, 1, false⟩
          [("Price?".data, "Freemium".data)] [] []).clarifications).clarifications.map
      (fun c => c.question)) = ["Price?".data, "Price?".data] ∧
    ¬ ((mergeClarifications (freshDebate "A note app".data [])
        (submitClarification ⟨[], true, true, false, false, 1, false⟩
          [("Price?".data, "Freemium".data)] [] []).clarifications).clarifications.map
      (fun c => c.question)).Nodup := by
  refine ⟨by decide, by decide, by decide⟩

/-! ## Claim C5 -/

/-- C5 (amended): when the Discovery race times out, the endpoint
responds with an HTTP 500 error whose message is "Discovery timeout" —
not with an empty question batch — and the client treats the non-OK
response as a failed round: `startDiscovery` returns `false` with the
pause flag cleared, leaving the retry to the loop error budget. -/
theorem claim5_timeout_behavior :
    discoveryHandler DiscoveryOutcome.timeout =
      DiscoveryResponse.serverError "Discovery timeout".data ∧
    startDiscoveryClient (discoveryHandler DiscoveryOutcome.timeout) =
      ⟨false, false, false⟩ :=
  ⟨rfl, rfl⟩

/-- Counterexample to C5 as stated: the timed-out stage does not return
an empty batch; it returns an error response. -/
theorem claim5_timeout_counterexample :
    discoveryHandler DiscoveryOutcome.timeout ≠ DiscoveryResponse.ok [] ∧
    discoveryHandler DiscoveryOutcome.timeout =
      DiscoveryResponse.serverError "Discovery timeout".data := by
  refine ⟨by decide, rfl⟩

/-! ## Claim C6 -/

/-- C6 (amended): winner extraction maps a verdict to the string
"advocate", "skeptic" or "draw" by the canonical substring matches on
the lowercased text, with advocate phrases taking precedence over
skeptic phrases over draw phrases; when no phrase matches it returns
null (modelled as `none`) — there is no `unknown` token. -/
theorem claim6_winner_vocabulary (s : List Char) :
    (advocatePhrase (jsLower s) → extractWinner s = some "advocate".data) ∧
    (¬ advocatePhrase (jsLower s) → skepticPhrase (jsLower s) →
      extractWinner s = some "skeptic".data) ∧
    (¬ advocatePhrase (jsLower s) → ¬ skepticPhrase (jsLower s) →
      drawPhrase (jsLower s) → extractWinner s = some "draw".data) ∧
    (¬ advocatePhrase (jsLower s) → ¬ skepticPhrase (jsLower s) →
      ¬ drawPhrase (jsLower s) → extractWinner s = none) := by
  have ha : advocatePhrase (jsLower s) ↔
      (containsSub "advocate wins".data (jsLower s) ||
       containsSub "winner: advocate".data (jsLower s) ||
       containsSub "advocate is the winner".data (jsLower s)) = true := by
    simp [advocatePhrase, occurs_iff_containsSub, or_assoc]
  have hk : skepticPhrase (jsLower s) ↔
      (containsSub "skeptic wins".data (jsLower s) ||
       containsSub "winner: skeptic".data (jsLower s) ||
       containsSub "skeptic is the winner".data (jsLower s)) = true := by
    simp [skepticPhrase, occurs_iff_containsSub, or_assoc]
  have hd : drawPhrase (jsLower s) ↔
      (containsSub "draw".data (jsLower s) ||
       containsSub "tie".data (jsLower s)) = true := by
    simp [drawPhrase, occurs_iff_containsSub]
  refine ⟨?_, ?_, ?_, ?_⟩
  · intro h
    simp only [extractWinner]
    rw [if_pos (ha.mp h)]
  · intro hna h
    simp only [extractWinner]
    rw [if_neg (fun hcon => hna (ha.mpr hcon)), if_pos (hk.mp h)]
  · intro hna hns h
    simp only [extractWinner]
    rw [if_neg (fun hcon => hna (ha.mpr hcon)),
        if_neg (fun hcon => hns (hk.mpr hcon)), if_pos (hd.mp h)]
  · intro hna hns hnd
    simp only [extractWinner]
    rw [if_neg (fun hcon => hna (ha.mpr hcon)),
        if_neg (fun hcon => hns (hk.mpr hcon)),
        if_neg (fun hcon => hnd (hd.mpr hcon))]

/-- Witness for C6: a verdict with the canonical advocate phrase, and a
verdict matching no phrase. -/
theorem claim6_winner_vocabulary_witness :
    extractWinner "## The Verdict: Winner: Advocate".data = some "advocate".data ∧
    extractWinner "No clear signal either way".data = none :=
  ⟨(claim6_winner_vocabulary _).1 (Or.inr (Or.inl (occurs_of_contains (by decide)))),
   (claim6_winner_vocabulary _).2.2.2
     (not_phrase3 (by decide) (by decide) (by decide))
     (not_phrase3 (by decide) (by decide) (by decide))
     (not_phrase2 (by decide) (by decide))⟩

/-- Counterexample to C6 as stated: a verdict in which no canonical
phrase matches is mapped to null, not to an `unknown` token. -/
theorem claim6_null_counterexample :
    extractWinner "The debate is inconclusive".data = none ∧
    extractWinner "The debate is inconclusive".data ≠ some "unknown".data := by
  refine ⟨by decide, by decide⟩

/-! ## Claim C7 -/

/-- C7 (confirmed): when the generation output contains a well-formed
embedded `<clarification>` tag, the debate-turn handler returns a
needs-clarification response carrying the question and the role, and the
session history and round counter are unchanged — no turn is stored. -/
theorem claim7_clarification_no_store (d : Debate) (role : Role)
    (reqClarifications : List Clarification) (llmResponse q : List Char)
    (h : findClarificationTag llmResponse = some q) :
    (debateTurnStep d role reqClarifications llmResponse).1 =
      TurnResult.needsClarification q role ∧
    (debateTurnStep d role reqClarifications llmResponse).2.history = d.history ∧
    (debateTurnStep d role reqClarifications llmResponse).2.round = d.round := by
  have hm : (mergeClarifications d reqClarifications).history = d.history ∧
      (mergeClarifications d reqClarifications).round = d.round := by
    simp only [mergeClarifications]
    split_ifs <;> simp
  simp only [debateTurnStep, h]
  exact ⟨by simp, hm.1, hm.2⟩

/-- Witness for C7 on a fresh session and a concrete clarification
request. -/
theorem claim7_clarification_no_store_witness :
    (debateTurnStep (freshDebate "An app".data []) Role.advocate []
      "<clarification>Who is the customer?</clarification>".data).1 =
      TurnResult.needsClarification "Who is the customer?".data Role.advocate ∧
    (debateTurnStep (freshDebate "An app".data []) Role.advocate []
      "<clarification>Who is the customer?</clarification>".data).2.history = [] ∧
    (debateTurnStep (freshDebate "An app".data []) Role.advocate []
      "<clarification>Who is the customer?</clarification>".data).2.round = 0 :=
  claim7_clarification_no_store _ _ _ _ _ (by decide)

/-! ## Claim C8 -/

/-- C8 (confirmed): with the premium entitlement reported false, every
debate-turn request issued by the loop (the ghost `callLog`) is for a
round within the free cap, over a single iteration and over any whole
loop run; and a loop entered unpaused with the counter beyond the cap
halts immediately in the round-limit-reached state, issuing nothing. -/
theorem claim8_round_cap :
    (∀ s errors i, s.access = false →
      ∀ r ∈ (loopIter errors s i).1.callLog, r ∈ s.callLog ∨ r ≤ MAX_FREE_ROUNDS) ∧
    (∀ fuel errors s ins, s.access = false →
      ∀ r ∈ (loopRun fuel errors s ins).callLog, r ∈ s.callLog ∨ r ≤ MAX_FREE_ROUNDS) ∧
    (∀ fuel errors s ins, s.access = false → s.paused = false →
      MAX_FREE_ROUNDS < s.currentRound →
      loopRun (fuel + 1) errors s ins = { s with paused := true, limitReached := true }) :=
  ⟨fun s errors i h => loopIter_callLog errors s i h,
   fun fuel errors s ins h => loopRun_callLog fuel errors s ins h,
   fun fuel errors s ins h1 h2 h3 => loopRun_halt fuel errors s ins h2 h1 h3⟩

/-- Witness for C8: a non-premium session already past the cap halts at
once with no generation calls. -/
theorem claim8_round_cap_witness :
    loopRun 1 0 { initArena false with currentRound := 4 }
      (fun _ => ⟨DiscOutcome.empty, TurnOutcome.fail, TurnOutcome.fail⟩) =
      { initArena false with currentRound := 4, paused := true, limitReached := true } :=
  claim8_round_cap.2.2 0 0 _ _ rfl rfl (by decide)

/-! ## Claim C9 -/

/-- C9 (confirmed): a fact-check request naming an unknown debate id but
carrying a non-empty idea is served against a temporary context made of
the supplied idea and file context (no stored clarifications); with an
unknown id and no idea it fails with the not-found error. -/
theorem claim9_checkfacts_fallback (store : List (List Char × Debate))
    (debateId idea clientFileContext : List Char)
    (hmiss : debatesGet store debateId = none) :
    (idea ≠ [] → checkFactsContext store debateId idea clientFileContext =
      Except.ok ⟨idea, clientFileContext, []⟩) ∧
    checkFactsContext store debateId [] clientFileContext =
      Except.error "Debate not found".data := by
  constructor
  · intro h
    simp only [checkFactsContext, hmiss]
    rw [if_pos h]
  · simp only [checkFactsContext, hmiss]
    rw [if_neg (by simp)]

/-- Witness for C9 on the empty store. -/
theorem claim9_checkfacts_fallback_witness :
    checkFactsContext [] "12345".data "An app".data "ctx".data =
      Except.ok ⟨"An app".data, "ctx".data, []⟩ ∧
    checkFactsContext [] "12345".data [] "ctx".data =
      Except.error "Debate not found".data :=
  ⟨(claim9_checkfacts_fallback [] "12345".data "An app".data "ctx".data rfl).1 (by decide),
   (claim9_checkfacts_fallback [] "12345".data "An app".data "ctx".data rfl).2⟩

/-! ## Claim C10 -/

/-- C10 (amended): the parser is total (every input yields a
thinking/output pair by construction), and on inputs containing none of
the four delimiter substrings the output is exactly the trimmed input —
in particular delimiter-free. The cleanup removal pass, however, is a
single left-to-right pass, and removing a tag can splice the surrounding
fragments into a NEW delimiter that survives (see the counterexample),
so outputs are not delimiter-free in general. -/
theorem claim10_parser_sanitization (s : List Char)
    (h1 : ¬ Occurs outOpen s) (h2 : ¬ Occurs outClose s)
    (h3 : ¬ Occurs thinkOpen s) (h4 : ¬ Occurs thinkClose s) :
    (parseResponse s).1 = [] ∧ (parseResponse s).2 = jsTrim s ∧
    ¬ Occurs outOpen (parseResponse s).2 ∧ ¬ Occurs outClose (parseResponse s).2 ∧
    ¬ Occurs thinkOpen (parseResponse s).2 ∧ ¬ Occurs thinkClose (parseResponse s).2 := by
  have hp := parseResponse_no_tags h1 h2 h3 h4
  rw [hp]
  exact ⟨rfl, rfl, not_occurs_jsTrim h1, not_occurs_jsTrim h2,
    not_occurs_jsTrim h3, not_occurs_jsTrim h4⟩

/-- Witness for C10 on a tag-free input. -/
theorem claim10_sanitization_witness :
    (parseResponse "  A direct answer.  ".data).1 = [] ∧
    (parseResponse "  A direct answer.  ".data).2 = jsTrim "  A direct answer.  ".data ∧
    ¬ Occurs outOpen (parseResponse "  A direct answer.  ".data).2 ∧
    ¬ Occurs outClose (parseResponse "  A direct answer.  ".data).2 ∧
    ¬ Occurs thinkOpen (parseResponse "  A direct answer.  ".data).2 ∧
    ¬ Occurs thinkClose (parseResponse "  A direct answer.  ".data).2 :=
  claim10_parser_sanitization _ (not_occurs_of_contains (by decide))
    (not_occurs_of_contains (by decide)) (not_occurs_of_contains (by decide))
    (not_occurs_of_contains (by decide))

/-- Counterexample to C10 as stated: removing the `<thinking>` tag from
the well-formed output segment splices "<out" and "put>" into a new
"<output>" substring, which survives in the returned output. -/
theorem claim10_splice_counterexample :
    (parseResponse "<output>A<out<thinking>put>B</output>".data).2 = "A<output>B".data ∧
    Occurs outOpen (parseResponse "<output>A<out<thinking>put>B</output>".data).2 := by
  constructor
  · decide
  · exact occurs_of_contains (by decide)

end DebateRoom
